import Mathlib

/-!
A shallow embedding of the babel-compile library (src/compile.js).

This file models the core of the `babel-compile` synchronization engine:
the tree classifier (`classifyDirectory` / `classifyDirMap`), the collision
validator inside `run`, the link-or-copy engine (`copy`) and the transform
engine (`compile`), together with the path arithmetic they use
(`path.join`, `path.basename`, `path.dirname`, `path.relative`,
`path.parse(..).ext`).

The filesystem is modelled as an association list from path strings to
nodes; a node records what `lstat` reports: the kind (regular file,
directory, symbolic link with its stored target, or other), the inode
number, the modification time (milliseconds), and the permission bits.
Asynchronous concurrency (`Promise.all`) over disjoint paths is modelled
by sequential folds in list order; errors abort the fold, and errors of
`run` carry the filesystem state at the moment of rejection.
-/

namespace BabelCompile

/-! ## Path helpers (Node.js `path` module, POSIX flavour) -/

/-- Split a list of characters at every occurrence of the separator. -/
def splitCharsAux (sep : Char) : List Char → List Char → List (List Char)
  | [], acc => [acc.reverse]
  | c :: cs, acc =>
      if c = sep then acc.reverse :: splitCharsAux sep cs []
      else splitCharsAux sep cs (c :: acc)

/-- Split a string at every occurrence of a separator character. -/
def splitChar (sep : Char) (s : String) : List String :=
  (splitCharsAux sep s.toList []).map List.asString

/-- The path segments of a path: split on `/`, dropping empty segments and
`.` segments. -/
def splitSegs (p : String) : List String :=
  (splitChar '/' p).filter (fun s => s ≠ "" && s ≠ ".")

/-- Join segments with `/`. -/
def joinSegs (segs : List String) : String :=
  String.intercalate "/" segs

/-- Whether a path is absolute. -/
def isAbs (p : String) : Bool :=
  List.isPrefixOf ['/'] p.toList

/-- `path.join(a, b)` for the clean relative/absolute paths this library
works with. -/
def joinP (a b : String) : String :=
  (if isAbs a then "/" else "") ++ joinSegs (splitSegs a ++ splitSegs b)

/-- `path.dirname`. -/
def dirname (p : String) : String :=
  let segs := splitSegs p
  if segs.length ≤ 1 then (if isAbs p then "/" else ".")
  else (if isAbs p then "/" else "") ++ joinSegs segs.dropLast

/-- `path.basename`. -/
def basename (p : String) : String :=
  (splitSegs p).getLastD ""

/-- Resolve `..` segments against the segments accumulated so far. -/
def normSegs (segs : List String) : List String :=
  segs.foldl (fun acc s => if s = ".." then acc.dropLast else acc.concat s) []

/-- Length of the longest common prefix of two segment lists. -/
def commonLen : List String → List String → Nat
  | a :: as, b :: bs => if a = b then commonLen as bs + 1 else 0
  | _, _ => 0

/-- `path.relative(f, t)`: walk up out of `f` with `..` segments, then
down into `t`. -/
def relative (f t : String) : String :=
  let fs := normSegs (splitSegs f)
  let ts := normSegs (splitSegs t)
  let n := commonLen fs ts
  joinSegs (List.replicate (fs.length - n) ".." ++ ts.drop n)

/-- Resolve a (possibly `..`-containing) link target against the directory
it is stored in. -/
def normJoin (d t : String) : String :=
  (if isAbs d then "/" else "") ++ joinSegs (normSegs (splitSegs d ++ splitSegs t))

/-- `path.parse(p).ext`: the extension of the final path component,
empty for dotfiles such as `.bashrc`. -/
def extname (p : String) : String :=
  let parts := splitChar '.' (basename p)
  if parts.length ≤ 1 then ""
  else if parts.length = 2 && parts.headD "" = "" then ""
  else "." ++ parts.getLastD ""

/-- `const supportedFiles = ['.js', '.jsx']`. -/
def supportedFiles : List String := [".js", ".jsx"]

/-- `const sourceMapSuffix = '.map'`. -/
def sourceMapSuffix : String := ".map"

/-- `isJs`: whether the file's extension is in the supported list. -/
def isJs (filename : String) : Bool :=
  supportedFiles.contains (extname filename)

/-! ## String ordering and the list combinators used by the validator

`Array.prototype.sort()` without a comparator sorts strings by UTF-16
code units; for the BMP strings handled here that is the code-point
lexicographic order below.  `_.uniq` keeps first occurrences,
`_.intersection` returns the unique values of its first argument that
occur in its second, and the duplicate collector walks adjacent entries
of the sorted list. -/

/-- Lexicographic comparison of character lists by code point. -/
def charListLe : List Char → List Char → Bool
  | [], _ => true
  | _ :: _, [] => false
  | a :: as, b :: bs =>
      if a.toNat < b.toNat then true
      else if b.toNat < a.toNat then false
      else charListLe as bs

/-- Lexicographic string comparison (JS default sort order). -/
def strLe (a b : String) : Bool := charListLe a.toList b.toList

/-- `array.sort()`: a stable sort in the JS default string order. -/
def sortStr (l : List String) : List String :=
  l.insertionSort (fun a b => strLe a b = true)

/-- Deduplication pass: drop values seen before, keep first occurrences. -/
def uniqAux (seen : List String) : List String → List String
  | [] => []
  | x :: xs =>
      if x ∈ seen then uniqAux seen xs else x :: uniqAux (x :: seen) xs

/-- `_.uniq`: deduplicate keeping first occurrences. -/
def uniqFirst (l : List String) : List String :=
  uniqAux [] l

/-- `_.intersection(a, b)`: unique values of `a` that also occur in `b`. -/
def intersectionU (a b : List String) : List String :=
  (uniqFirst a).filter (fun x => decide (x ∈ b))

/-- The duplicate collector of `run`: every element equal to its
predecessor in the (sorted) list. -/
def adjDupes : List String → List String
  | a :: b :: rest => (if b = a then [b] else []) ++ adjDupes (b :: rest)
  | _ => []

/-! ## The tree classifier

`classifyDirectory(src, dst)` recursively walks the directory tree rooted
at `src`.  The tree it discovers through `lstat` and `readdir` is the
`Entry` below: a directory entry with its children, or any non-directory
entry (regular file, or symbolic link, which `lstat` does not follow and
which the classifier therefore buckets by extension like a file). -/

/-- A directory tree as discovered by `lstat`/`readdir`. -/
inductive Entry where
  | file (name : String)
  | dir (name : String) (children : List Entry)

/-- The name of an entry inside its parent directory. -/
def Entry.name : Entry → String
  | .file n => n
  | .dir n _ => n

/-- A `{src: ..., dst: ...}` pairing. -/
structure Pair where
  src : String
  dst : String
deriving DecidableEq, Repr

/-- The result shape `{dir: [...], com: [...], cop: [...]}`. -/
structure Classified where
  dir : List String
  com : List Pair
  cop : List Pair
deriving DecidableEq, Repr

/-- Merging two classification results by concatenation
(`Array.prototype.push.apply`). -/
def mergeC (a b : Classified) : Classified :=
  ⟨a.dir ++ b.dir, a.com ++ b.com, a.cop ++ b.cop⟩

mutual

/-- `classifyDirectory(src, dst)` on the tree found at `src`: a directory
records `dst` in the directory list and classifies each child under the
joined paths; a non-directory becomes a compile pair when `isJs(src)`
holds and a copy pair otherwise. -/
def classifyDirectory : Entry → String → String → Classified
  | .file _, src, dst =>
      if isJs src then ⟨[], [⟨src, dst⟩], []⟩ else ⟨[], [], [⟨src, dst⟩]⟩
  | .dir _ children, src, dst =>
      mergeC ⟨[dst], [], []⟩ (classifyChildren children src dst)

/-- The `dirContent.map(...)` loop over the children of a directory. -/
def classifyChildren : List Entry → String → String → Classified
  | [], _, _ => ⟨[], [], []⟩
  | c :: cs, src, dst =>
      mergeC (classifyDirectory c (joinP src c.name) (joinP dst c.name))
        (classifyChildren cs src dst)

end

mutual

/-- All non-directory paths of a tree, rooted at the given path. -/
def srcFiles : Entry → String → List String
  | .file _, src => [src]
  | .dir _ children, src => srcFilesL children src

/-- All non-directory paths of a list of children. -/
def srcFilesL : List Entry → String → List String
  | [], _ => []
  | c :: cs, src => srcFiles c (joinP src c.name) ++ srcFilesL cs src

end

mutual

/-- All directory paths of a tree, mapped to the destination side. -/
def dstDirs : Entry → String → List String
  | .file _, _ => []
  | .dir _ children, dst => dst :: dstDirsL children dst

/-- All directory paths of a list of children, destination side. -/
def dstDirsL : List Entry → String → List String
  | [], _ => []
  | c :: cs, dst => dstDirs c (joinP dst c.name) ++ dstDirsL cs dst

end

/-! ## The filesystem state

A state maps path strings to nodes.  A node records what `lstat`
reports: kind, inode number, modification time (ms) and permission
bits.  Hardlinked paths map to nodes with the same nonzero inode;
filesystems that expose no inodes report inode `0`. -/

/-- What `lstat` distinguishes: regular file (with its bytes), directory,
symbolic link (with the stored target string), or anything else
(socket, fifo, ...). -/
inductive NodeKind where
  | file (content : String)
  | directory
  | symlink (target : String)
  | other
deriving DecidableEq, Repr

/-- Whether the kind is a regular file (`stats.isFile()`). -/
def NodeKind.isFile : NodeKind → Bool
  | .file _ => true
  | _ => false

/-- Whether the kind is a directory (`stats.isDirectory()`). -/
def NodeKind.isDir : NodeKind → Bool
  | .directory => true
  | _ => false

/-- One `lstat` record. -/
structure Node where
  kind : NodeKind
  ino : Nat
  mtime : Nat
  mode : Nat
deriving DecidableEq, Repr

/-- A filesystem state: an association list from paths to nodes. -/
abbrev FS := List (String × Node)

/-- `lstat`: the node stored at a path, if any. -/
def fsGet (σ : FS) (p : String) : Option Node :=
  (σ.find? (fun e => e.1 = p)).map (fun e => e.2)

/-- Store a node at a path, replacing an existing entry in place. -/
def fsSet (σ : FS) (p : String) (n : Node) : FS :=
  if (fsGet σ p).isSome then
    σ.map (fun e => if e.1 = p then (p, n) else e)
  else
    σ ++ [(p, n)]

/-- Remove the entry at exactly this path. -/
def fsRemove (σ : FS) (p : String) : FS :=
  σ.filter (fun e => e.1 ≠ p)

/-- Whether `q` lies at or below `root`. -/
def underPath (root q : String) : Bool :=
  q = root || List.isPrefixOf (root ++ "/").toList q.toList

/-- `rimraf`: remove the whole subtree rooted at a path (a no-op when
nothing is there). -/
def rmrf (σ : FS) (p : String) : FS :=
  σ.filter (fun e => !underPath p e.1)

/-- A fresh inode number for a newly created node. -/
def freshIno (σ : FS) : Nat :=
  σ.foldl (fun m e => max m e.2.ino) 0 + 1

/-- Follow symbolic links from a path (with fuel), as `fs.stat` does. -/
def resolveNode (σ : FS) : Nat → String → Option Node
  | 0, _ => none
  | fuel + 1, p =>
      match fsGet σ p with
      | none => none
      | some n =>
          match n.kind with
          | .symlink t => resolveNode σ fuel (normJoin (dirname p) t)
          | _ => some n

/-- `fs.stat`: the node a path finally refers to. -/
def statNode (σ : FS) (p : String) : Option Node :=
  resolveNode σ (σ.length + 1) p

/-- `fs.exists`: `stat` succeeds (a dangling symlink does not exist). -/
def statExists (σ : FS) (p : String) : Bool :=
  (statNode σ p).isSome

/-- The child names a `readdir` of this path reports: entries exactly one
segment below it. -/
def readdirNames (σ : FS) (p : String) : List String :=
  σ.filterMap (fun e =>
    match (splitChar '/' e.1).reverse with
    | name :: _ =>
        if e.1 = joinP p name && name ≠ "" then some name else none
    | [] => none)

/-- Read the tree rooted at a path (with fuel), as the recursive
`lstat`/`readdir` walks do. -/
def readTree (σ : FS) : Nat → String → Option Entry
  | 0, _ => none
  | fuel + 1, p =>
      match fsGet σ p with
      | none => none
      | some n =>
          match n.kind with
          | .directory =>
              some (.dir (basename p)
                ((readdirNames σ p).filterMap (fun name =>
                  readTree σ fuel (joinP p name))))
          | _ => some (.file (basename p))

/-- The file paths of a tree, rooted at the given path
(`listDirectory`'s `files` accumulator). -/
def treeFiles : Entry → String → List String :=
  srcFiles

/-- The directory paths of a tree, rooted at the given path
(`listDirectory`'s `dirs` accumulator). -/
def treeDirs : Entry → String → List String :=
  dstDirs

/-- `listDirectory(roots)`: all files and directories reachable under the
given roots (roots that cannot be `lstat`ed are skipped). -/
def listDirectory (σ : FS) (roots : List String) : List String × List String :=
  roots.foldl (fun acc root =>
    match readTree σ (σ.length + 1) root with
    | none => acc
    | some t => (acc.1 ++ treeFiles t root, acc.2 ++ treeDirs t root))
    ([], [])

/-! ## Errors, options and the environment -/

/-- Failures of individual filesystem operations or of the transform
capability (`FilesystemError` / `TransformError` in spec terms).  The
copy and compile phases only ever reject with these. -/
inductive FsErr where
  | enoent (p : String)
  | eexist (p : String)
  | assertFailed (msg : String)
  | transformFailed (msg : String)
deriving DecidableEq, Repr

/-- The typed rejections of `run`: the three pre-flight error codes, or a
wrapped failure from the later phases. -/
inductive RunErr where
  | missingSource (p : String)
  | inputOutputOverlap (overlap : List String)
  | foundDuplicates (dupes : List String)
  | fsFailure (e : FsErr)
deriving DecidableEq, Repr

/-- A babel option value (boolean or string). -/
inductive OptVal where
  | b (v : Bool)
  | s (v : String)
deriving DecidableEq, Repr

/-- A caller-supplied options object: an association list of keys to
values. -/
abbrev Opts := List (String × OptVal)

/-- Read a key from an options object. -/
def getOpt (o : Opts) (k : String) : Option OptVal :=
  (o.find? (fun e => e.1 = k)).map (fun e => e.2)

/-- The source-map options `compile` forces, computed from `src` and
`dst` (lines 495-500 of compile.js). -/
def forcedOpts (src dst : String) : Opts :=
  [("sourceMaps", .b true),
   ("sourceFileName", .s (basename src)),
   ("sourceMapTarget", .s (basename dst)),
   ("sourceRoot", .s (relative (dirname dst) (dirname src)))]

/-- `_.defaults({}, forcedOpts, opts)`: the forced keys win, every other
key keeps the caller's value. -/
def effectiveOpts (src dst : String) (opts : Opts) : String → Option OptVal :=
  fun k =>
    match getOpt (forcedOpts src dst) k with
    | some v => some v
    | none => getOpt opts k

/-- What `babel.transformFile` produces: the generated code and the
source map (the map's serialized form is kept abstract as a string). -/
structure TransformOut where
  code : String
  map : String
deriving DecidableEq, Repr

/-- The ambient environment: whether hardlinking and symlinking succeed
(the structural fallback chain of `copy`), the clock used for the mtime
of newly created nodes, and the external transform capability. -/
structure Env where
  linkOk : Bool
  symlinkOk : Bool
  now : Nat
  transform : String → (String → Option OptVal) → Except String TransformOut

/-- Decidable equality of `Except` results, so concrete runs can be
checked by evaluation. -/
instance exceptDecEq {ε α : Type} [DecidableEq ε] [DecidableEq α] :
    DecidableEq (Except ε α)
  | .ok a, .ok b =>
      if h : a = b then .isTrue (by rw [h])
      else .isFalse (fun hc => h (Except.ok.inj hc))
  | .error a, .error b =>
      if h : a = b then .isTrue (by rw [h])
      else .isFalse (fun hc => h (Except.error.inj hc))
  | .ok _, .error _ => .isFalse (fun hc => Except.noConfusion hc)
  | .error _, .ok _ => .isFalse (fun hc => Except.noConfusion hc)

/-- `fs.unlink`: remove a path's entry; rejects with `ENOENT` when
nothing is there. -/
def unlink (σ : FS) (p : String) : Except FsErr FS :=
  if (fsGet σ p).isSome then .ok (fsRemove σ p) else .error (.enoent p)

/-! ## The link-or-copy engine (`copy`, compile.js lines 306-421) -/

/-- The creation tail of `copy` (lines 374-420): try a hardlink, then a
relative symlink, then a byte-for-byte copy using the write stream's
default permission bits. -/
def createLink (env : Env) (σ : FS) (srcstat : Node) (src dst : String) : FS :=
  if env.linkOk then
    fsSet σ dst srcstat
  else if env.symlinkOk then
    fsSet σ dst ⟨.symlink (relative (dirname dst) src), freshIno σ, env.now, 511⟩
  else
    fsSet σ dst ⟨srcstat.kind, freshIno σ, env.now, 438⟩

/-- Lines 349-372 of `copy`: the non-file cleanup, the inode
short-circuit, and the modification-time comparison, falling through to
creation.  `dstlstat` is the stat record taken before any deletion. -/
def copyRest (env : Env) (σ : FS) (srcstat dstlstat : Node) (src dst : String) :
    Except FsErr FS := do
  let σ ← if !dstlstat.kind.isFile then unlink σ dst else pure σ
  if srcstat.ino = dstlstat.ino ∧ srcstat.ino ≠ 0 then
    return σ
  if dstlstat.mtime > srcstat.mtime then
    return σ
  let σ ← unlink σ dst
  return createLink env σ srcstat src dst

/-- Lines 328-372 of `copy`: the destination already exists.  A directory
is removed recursively; a symlink whose stored target is exactly the
relative path this engine would create is accepted as-is, any other
symlink is unlinked; then `copyRest` finishes the decision. -/
def copyExisting (env : Env) (σ : FS) (srcstat dstlstat : Node)
    (src dst : String) : Except FsErr FS := do
  let σ := if dstlstat.kind.isDir then rmrf σ dst else σ
  match dstlstat.kind with
  | .symlink linkpath =>
      if linkpath = relative (dirname dst) src then
        return σ
      let σ ← unlink σ dst
      copyRest env σ srcstat dstlstat src dst
  | _ => copyRest env σ srcstat dstlstat src dst

/-- `copy(src, dst)`: link or copy a single file into place. -/
def copy (env : Env) (σ : FS) (src dst : String) : Except FsErr FS := do
  let some srcstat := statNode σ src
    | throw (.enoent src)
  if !srcstat.kind.isFile then
    throw (.assertFailed "srcstat.isFile()")
  match fsGet σ dst with
  | none => return createLink env σ srcstat src dst
  | some dstlstat => copyExisting env σ srcstat dstlstat src dst

/-! ## The transform engine (`compile`, compile.js lines 447-517) -/

/-- Write a regular file (fresh inode, current time, given mode). -/
def writeFile (env : Env) (σ : FS) (p content : String) (mode : Nat) : FS :=
  fsSet σ p ⟨.file content, freshIno σ, env.now, mode⟩

/-- Lines 493-516 of `compile`: invoke the transform capability with the
caller's options merged under the forced source-map options, then write
the primary output (with its trailing `sourceMappingURL` marker) and the
map file, both with the source's permission bits. -/
def doTransform (env : Env) (σ : FS) (srcstat : Node) (src dst : String)
    (opts : Opts) : Except FsErr FS := do
  match env.transform src (effectiveOpts src dst opts) with
  | .error e => throw (.transformFailed e)
  | .ok out =>
      let σ := writeFile env σ dst
        (out.code ++ "\n//# sourceMappingURL=" ++ basename dst ++ sourceMapSuffix)
        srcstat.mode
      return writeFile env σ (dst ++ sourceMapSuffix) (out.map ++ "\n") srcstat.mode

/-- `compile(src, dst, opts)`: transform a single file into place,
with the shortened staleness decision of lines 464-491. -/
def compile (env : Env) (σ : FS) (src dst : String) (opts : Opts) :
    Except FsErr FS := do
  let some srcstat := statNode σ src
    | throw (.assertFailed "await fs.exists(src)")
  if !srcstat.kind.isFile then
    throw (.assertFailed "srcstat.isFile()")
  match fsGet σ dst with
  | none => doTransform env σ srcstat src dst opts
  | some dstlstat => do
      let σ := if dstlstat.kind.isDir then rmrf σ dst else σ
      let σ ← if !dstlstat.kind.isDir && !dstlstat.kind.isFile then
          unlink σ dst
        else pure σ
      let σ ← if srcstat.ino = dstlstat.ino ∧ srcstat.ino ≠ 0 then
          unlink σ dst
        else pure σ
      if dstlstat.mtime > srcstat.mtime then
        return σ
      let σ ← unlink σ dst
      doTransform env σ srcstat src dst opts

/-! ## Directory creation (`createDirectories`, lines 264-287) -/

/-- All the non-empty `/`-prefixes of a path, shortest first, the path
itself last. -/
def segPrefixes (p : String) : List String :=
  let segs := splitSegs p
  (List.range segs.length).map (fun i =>
    (if isAbs p then "/" else "") ++ joinSegs (segs.take (i + 1)))

/-- `mkdirp`: create the directory and every missing intermediate
segment; an existing non-directory along the way is a conflict. -/
def mkdirP (env : Env) (σ : FS) (p : String) : Except FsErr FS :=
  (segPrefixes p).foldlM (fun σ q =>
    match fsGet σ q with
    | some n => if n.kind.isDir then .ok σ else .error (.eexist q)
    | none => .ok (fsSet σ q ⟨.directory, freshIno σ, env.now, 493⟩)) σ

/-- `createDirectories(directories)`: skip entries that already exist as
directories, `mkdirp` the rest. -/
def createDirectories (env : Env) (σ : FS) (dirs : List String) :
    Except FsErr FS :=
  dirs.foldlM (fun σ dir =>
    match fsGet σ dir with
    | some st => if st.kind.isDir then .ok σ else mkdirP env σ dir
    | none => mkdirP env σ dir) σ

/-! ## `run` (lines 40-128) and its phases -/

/-- `classifyDirMap(dirMap)`: assert every pairing's source exists, then
classify the tree found there and merge the results. -/
def classifyDirMap (σ : FS) (dirMap : List Pair) : Except RunErr Classified :=
  dirMap.foldlM (fun acc p =>
    if statExists σ p.src then
      match readTree σ (σ.length + 1) p.src with
      | some t => .ok (mergeC acc (classifyDirectory t p.src p.dst))
      | none => .error (.fsFailure (.enoent p.src))
    else
      .error (.missingSource p.src)) ⟨[], [], []⟩

/-- The `forceClean` phase: remove each pairing's destination root that
exists, before anything else happens. -/
def cleanPhase (σ : FS) (dirMap : List Pair) (forceClean : Bool) : FS :=
  if forceClean then
    dirMap.foldl (fun σ p => if statExists σ p.dst then rmrf σ p.dst else σ) σ
  else σ

/-- The `allFiles` list of `run` (lines 65-69): every compile
destination, every copy destination, and every compile destination with
the source-map suffix appended. -/
def writtenPaths (files : Classified) : List String :=
  files.com.map Pair.dst ++ files.cop.map Pair.dst ++
    files.com.map (fun x => x.dst ++ sourceMapSuffix)

/-- The `allSourceFiles` list of `run` (lines 72-75). -/
def inputPaths (files : Classified) : List String :=
  files.com.map Pair.src ++ files.cop.map Pair.src

/-- Fold an effectful step over a list, recording the state at the moment
of the first failure. -/
def foldE {α : Type} (step : FS → α → Except FsErr FS) :
    FS → List α → Except (FsErr × FS) FS
  | σ, [] => .ok σ
  | σ, a :: rest =>
      match step σ a with
      | .error e => .error (e, σ)
      | .ok σ2 => foldE step σ2 rest

/-- The mutating phases of `run` after validation has passed: the
incremental cleanup of stale destination entries (only when not force
cleaning), directory creation, then the compile and copy batches.  The
concurrent batches are modelled in list order. -/
def runPhases (env : Env) (σ : FS) (files : Classified) (allFiles : List String)
    (dirMap : List Pair) (babelopts : Opts) (forceClean : Bool) :
    Except (FsErr × FS) FS := do
  let σ ←
    if !forceClean then do
      let dstcontents := listDirectory σ (dirMap.map Pair.dst)
      let fileExtra := dstcontents.1.filter (fun x => decide (x ∉ allFiles))
      let dirExtra := dstcontents.2.filter (fun x => decide (x ∉ files.dir))
      let σ ← foldE unlink σ fileExtra
      pure (dirExtra.foldl rmrf σ)
    else pure σ
  let σ ←
    match createDirectories env σ files.dir with
    | .error e => .error (e, σ)
    | .ok σ2 => .ok σ2
  let σ ← foldE (fun σ x => compile env σ x.src x.dst babelopts) σ files.com
  foldE (fun σ x => copy env σ x.src x.dst) σ files.cop

/-- The `babel-compile` options object; `forceClean` defaults to
`true` via `_.defaults`. -/
structure BCOpts where
  forceClean : Option Bool := none
deriving DecidableEq, Repr

/-- `run(dirMap, babelopts, bcopts)`: force-clean the destinations (by
default), classify, validate for input/output overlap and duplicate
outputs, then reconcile.  A rejection carries the filesystem state at
the moment it is thrown. -/
def run (env : Env) (σ0 : FS) (dirMap : List Pair) (babelopts : Opts)
    (bcopts : BCOpts := {}) : Except (RunErr × FS) FS :=
  let forceClean := bcopts.forceClean.getD true
  let σ1 := cleanPhase σ0 dirMap forceClean
  match classifyDirMap σ1 dirMap with
  | .error e => .error (e, σ1)
  | .ok files =>
      let allFiles := sortStr (writtenPaths files)
      let allSourceFiles := sortStr (inputPaths files)
      let overlapping := intersectionU allFiles allSourceFiles
      if overlapping ≠ [] then
        .error (.inputOutputOverlap overlapping, σ1)
      else if allFiles.length ≠ (uniqFirst allFiles).length then
        .error (.foundDuplicates (adjDupes allFiles), σ1)
      else
        match runPhases env σ1 files allFiles dirMap babelopts forceClean with
        | .error (e, σ2) => .error (.fsFailure e, σ2)
        | .ok σ2 => .ok σ2

/-! ## Order properties of the string comparison -/

theorem charListLe_total : ∀ a b : List Char,
    charListLe a b = true ∨ charListLe b a = true
  | [], _ => .inl rfl
  | _ :: _, [] => .inr rfl
  | a :: as, b :: bs => by
      rcases Nat.lt_trichotomy a.toNat b.toNat with h | h | h
      · left; simp [charListLe, h]
      · have h1 : ¬ a.toNat < b.toNat := by omega
        have h2 : ¬ b.toNat < a.toNat := by omega
        rcases charListLe_total as bs with ih | ih
        · left; simp [charListLe, h1, h2, ih]
        · right; simp [charListLe, h1, h2, ih]
      · right; simp [charListLe, h]

theorem charListLe_trans : ∀ a b c : List Char,
    charListLe a b = true → charListLe b c = true → charListLe a c = true
  | [], _, _, _, _ => rfl
  | _ :: _, [], _, hab, _ => by simp [charListLe] at hab
  | _ :: _, _ :: _, [], _, hbc => by simp [charListLe] at hbc
  | a :: as, b :: bs, c :: cs, hab, hbc => by
      have hba : ¬ b.toNat < a.toNat := by
        intro h
        simp [charListLe, h, Nat.lt_asymm h] at hab
      have hcb : ¬ c.toNat < b.toNat := by
        intro h
        simp [charListLe, h, Nat.lt_asymm h] at hbc
      by_cases hac : a.toNat < c.toNat
      · simp [charListLe, hac]
      · have hca : ¬ c.toNat < a.toNat := by omega
        have hab2 : charListLe as bs = true := by
          have hA : ¬ a.toNat < b.toNat := by omega
          simpa [charListLe, hA, hba] using hab
        have hbc2 : charListLe bs cs = true := by
          have hB : ¬ b.toNat < c.toNat := by omega
          simpa [charListLe, hB, hcb] using hbc
        simp [charListLe, hac, hca, charListLe_trans as bs cs hab2 hbc2]

theorem charListLe_antisymm : ∀ a b : List Char,
    charListLe a b = true → charListLe b a = true → a = b
  | [], [], _, _ => rfl
  | _ :: _, [], hab, _ => by simp [charListLe] at hab
  | [], _ :: _, _, hba => by simp [charListLe] at hba
  | a :: as, b :: bs, hab, hba => by
      simp only [charListLe] at hab hba
      split_ifs at hab hba with h1 h2
      · omega
      · have hn : a.toNat = b.toNat := by omega
        have heq : a = b := Char.ext (UInt32.toNat.inj hn)
        rw [heq, charListLe_antisymm as bs hab hba]

theorem strLe_total (a b : String) : strLe a b = true ∨ strLe b a = true :=
  charListLe_total a.toList b.toList

theorem strLe_trans (a b c : String) :
    strLe a b = true → strLe b c = true → strLe a c = true :=
  charListLe_trans a.toList b.toList c.toList

theorem strLe_antisymm (a b : String) :
    strLe a b = true → strLe b a = true → a = b := fun hab hba =>
  String.toList_inj.mp (charListLe_antisymm a.toList b.toList hab hba)

instance : IsTotal String (fun a b => strLe a b = true) :=
  ⟨strLe_total⟩

instance : IsTrans String (fun a b => strLe a b = true) :=
  ⟨strLe_trans⟩

theorem sortStr_perm (l : List String) : List.Perm (sortStr l) l :=
  List.perm_insertionSort _ l

theorem sortStr_sorted (l : List String) :
    (sortStr l).Sorted (fun a b => strLe a b = true) :=
  List.sorted_insertionSort _ l

/-! ## Properties of the validator's list combinators -/

theorem mem_uniqAux (x : String) : ∀ (l seen : List String),
    x ∈ uniqAux seen l ↔ x ∈ l ∧ x ∉ seen
  | [], seen => by simp [uniqAux]
  | y :: ys, seen => by
      rw [uniqAux]
      by_cases hy : y ∈ seen
      · rw [if_pos hy, mem_uniqAux x ys seen]
        simp only [List.mem_cons]
        constructor
        · rintro ⟨h1, h2⟩
          exact ⟨Or.inr h1, h2⟩
        · rintro ⟨h1 | h1, h2⟩
          · subst h1
            exact absurd hy h2
          · exact ⟨h1, h2⟩
      · rw [if_neg hy]
        simp only [List.mem_cons, mem_uniqAux x ys (y :: seen)]
        constructor
        · rintro (rfl | ⟨h1, h2⟩)
          · exact ⟨Or.inl rfl, hy⟩
          · exact ⟨Or.inr h1, fun hs => h2 (Or.inr hs)⟩
        · rintro ⟨rfl | h1, h2⟩
          · exact Or.inl rfl
          · by_cases hxy : x = y
            · exact Or.inl hxy
            · refine Or.inr ⟨h1, fun hs => ?_⟩
              rcases hs with h | h
              · exact hxy h
              · exact h2 h

theorem mem_uniqFirst (x : String) (l : List String) :
    x ∈ uniqFirst l ↔ x ∈ l := by
  rw [uniqFirst, mem_uniqAux]
  simp

theorem length_uniqAux_le : ∀ (l seen : List String),
    (uniqAux seen l).length ≤ l.length
  | [], _ => Nat.le_refl 0
  | y :: ys, seen => by
      by_cases hy : y ∈ seen
      · rw [uniqAux, if_pos hy]
        exact Nat.le_succ_of_le (length_uniqAux_le ys seen)
      · rw [uniqAux, if_neg hy, List.length_cons, List.length_cons]
        exact Nat.succ_le_succ (length_uniqAux_le ys (y :: seen))

theorem length_uniqAux_eq_iff : ∀ (l seen : List String),
    (uniqAux seen l).length = l.length ↔
      l.Nodup ∧ ∀ x ∈ l, x ∉ seen
  | [], seen => by simp [uniqAux]
  | y :: ys, seen => by
      by_cases hy : y ∈ seen
      · rw [uniqAux, if_pos hy]
        constructor
        · intro h
          have := length_uniqAux_le ys seen
          rw [List.length_cons] at h
          omega
        · rintro ⟨_, hall⟩
          exact absurd hy (hall y (.head _))
      · rw [uniqAux, if_neg hy, List.length_cons, List.length_cons,
          Nat.succ_inj, length_uniqAux_eq_iff ys (y :: seen)]
        constructor
        · rintro ⟨hnd, hall⟩
          refine ⟨List.nodup_cons.mpr ⟨fun hmem => ?_, hnd⟩, ?_⟩
          · exact (hall y hmem) (.head _)
          · intro x hx
            rcases List.mem_cons.mp hx with rfl | hx
            · exact hy
            · exact fun hs => hall x hx (.tail _ hs)
        · rintro ⟨hnd, hall⟩
          rcases List.nodup_cons.mp hnd with ⟨hym, hnd⟩
          refine ⟨hnd, fun x hx hs => ?_⟩
          rcases List.mem_cons.mp hs with rfl | hs
          · exact hym hx
          · exact hall x (.tail _ hx) hs

theorem length_uniqFirst_eq_iff (l : List String) :
    (uniqFirst l).length = l.length ↔ l.Nodup := by
  rw [uniqFirst, length_uniqAux_eq_iff]
  simp

theorem mem_intersectionU (x : String) (a b : List String) :
    x ∈ intersectionU a b ↔ x ∈ a ∧ x ∈ b := by
  rw [intersectionU, List.mem_filter, mem_uniqFirst]
  simp

theorem intersectionU_eq_nil_iff (a b : List String) :
    intersectionU a b = [] ↔ ∀ x, ¬(x ∈ a ∧ x ∈ b) := by
  rw [List.eq_nil_iff_forall_not_mem]
  constructor
  · intro h x hx
    exact h x ((mem_intersectionU x a b).mpr hx)
  · intro h x hx
    exact h x ((mem_intersectionU x a b).mp hx)

theorem mem_adjDupes_of_sorted : ∀ (l : List String),
    l.Sorted (fun a b => strLe a b = true) →
    ∀ x, x ∈ adjDupes l ↔ 2 ≤ l.count x
  | [], _, x => by simp [adjDupes]
  | [a], _, x => by
      simp only [adjDupes, List.not_mem_nil, false_iff, List.count_singleton]
      split <;> omega
  | a :: b :: rest, hs, x => by
      have hab : strLe a b = true := (List.sorted_cons.mp hs).1 b (.head _)
      have hbrest : ∀ y ∈ rest, strLe b y = true :=
        fun y hy => (List.sorted_cons.mp (List.sorted_cons.mp hs).2).1 y hy
      have ih := mem_adjDupes_of_sorted (b :: rest) (List.sorted_cons.mp hs).2 x
      rw [adjDupes, List.mem_append, ih]
      constructor
      · rintro (hif | h2)
        · by_cases hba : b = a
          · rw [if_pos hba] at hif
            have hxb : x = b := List.mem_singleton.mp hif
            subst hxb
            subst hba
            rw [List.count_cons_self, List.count_cons_self]
            omega
          · rw [if_neg hba] at hif
            exact absurd hif (List.not_mem_nil x)
        · calc 2 ≤ (b :: rest).count x := h2
            _ ≤ (a :: b :: rest).count x :=
              List.Sublist.count_le (List.sublist_cons_self a (b :: rest)) x
      · intro h2
        by_cases hax : x = a
        · subst hax
          rw [List.count_cons_self] at h2
          have hmem : x ∈ b :: rest := List.count_pos_iff.mp (by omega)
          have hbx : b = x := by
            rcases List.mem_cons.mp hmem with h | h
            · exact h.symm
            · exact (strLe_antisymm x b hab (hbrest x h)).symm
          left
          rw [if_pos hbx]
          exact List.mem_singleton.mpr hbx.symm
        · right
          rwa [List.count_cons_of_ne hax] at h2

/-! ## The classifier partitions the tree -/

mutual

theorem classifySpec : ∀ (e : Entry) (src dst : String),
    (classifyDirectory e src dst).com.map Pair.src = (srcFiles e src).filter isJs ∧
    (classifyDirectory e src dst).cop.map Pair.src =
      (srcFiles e src).filter (fun s => !isJs s) ∧
    (classifyDirectory e src dst).dir = dstDirs e dst
  | .file n, src, dst => by
      by_cases h : isJs src = true
      · simp [classifyDirectory, srcFiles, dstDirs, h]
      · simp [classifyDirectory, srcFiles, dstDirs, h,
          Bool.not_eq_true _ ▸ h]
  | .dir n children, src, dst => by
      have ih := classifyChildrenSpec children src dst
      simp [classifyDirectory, mergeC, srcFiles, dstDirs, ih.1, ih.2.1, ih.2.2]

theorem classifyChildrenSpec : ∀ (cs : List Entry) (src dst : String),
    (classifyChildren cs src dst).com.map Pair.src =
      (srcFilesL cs src).filter isJs ∧
    (classifyChildren cs src dst).cop.map Pair.src =
      (srcFilesL cs src).filter (fun s => !isJs s) ∧
    (classifyChildren cs src dst).dir = dstDirsL cs dst
  | [], _, _ => by simp [classifyChildren, srcFilesL, dstDirsL]
  | c :: cs, src, dst => by
      have ih1 := classifySpec c (joinP src c.name) (joinP dst c.name)
      have ih2 := classifyChildrenSpec cs src dst
      simp [classifyChildren, mergeC, srcFilesL, dstDirsL, List.filter_append,
        ih1.1, ih1.2.1, ih1.2.2, ih2.1, ih2.2.1, ih2.2.2]

end

/-! ## The staleness decision of `copy` and `compile` on plain-file
destinations -/

theorem unlink_of_isSome {σ : FS} {p : String} (h : (fsGet σ p).isSome) :
    unlink σ p = .ok (fsRemove σ p) := by
  simp [unlink, h]

/-- When the destination is a plain file that is not identity-equal to
the source, `copy` keeps it exactly when it is strictly newer, and
otherwise unlinks it and runs the creation chain. -/
theorem copy_file_dst (env : Env) (σ : FS) (src dst : String) (s d : Node)
    (c cd : String)
    (hsrc : statNode σ src = some s) (hsf : s.kind = .file c)
    (hdst : fsGet σ dst = some d) (hdf : d.kind = .file cd)
    (hni : ¬(s.ino = d.ino ∧ s.ino ≠ 0)) :
    copy env σ src dst =
      if d.mtime > s.mtime then .ok σ
      else .ok (createLink env (fsRemove σ dst) s src dst) := by
  rw [copy]
  simp only [hsrc, hsf, hdst]
  simp only [copyExisting, hdf, NodeKind.isDir, NodeKind.isFile, copyRest]
  simp only [Bool.not_true, if_neg hni]
  by_cases hm : d.mtime > s.mtime
  · simp only [if_pos hm]
    rfl
  · simp only [if_neg hm]
    simp [unlink_of_isSome (show (fsGet σ dst).isSome by simp [hdst])]

/-- The same decision for `compile`, ending in the transform-and-write
tail instead of the link chain. -/
theorem compile_file_dst (env : Env) (σ : FS) (src dst : String) (opts : Opts)
    (s d : Node) (c cd : String)
    (hsrc : statNode σ src = some s) (hsf : s.kind = .file c)
    (hdst : fsGet σ dst = some d) (hdf : d.kind = .file cd)
    (hni : ¬(s.ino = d.ino ∧ s.ino ≠ 0)) :
    compile env σ src dst opts =
      if d.mtime > s.mtime then .ok σ
      else doTransform env (fsRemove σ dst) s src dst opts := by
  rw [compile]
  simp only [hsrc, hsf, hdst]
  simp only [hdf, NodeKind.isDir, NodeKind.isFile]
  simp only [Bool.not_true, Bool.not_false, Bool.and_self, if_neg hni]
  by_cases hm : d.mtime > s.mtime
  · simp only [if_pos hm]
    rfl
  · simp only [if_neg hm]
    simp [unlink_of_isSome (show (fsGet σ dst).isSome by simp [hdst])]
    rfl

theorem run_preflight_pure (env : Env) (σ0 : FS) (dirMap : List Pair)
    (babelopts : Opts) (e : RunErr) (σ1 : FS)
    (hrun : run env σ0 dirMap babelopts ⟨some false⟩ = .error (e, σ1))
    (hnotfs : ∀ f : FsErr, e ≠ RunErr.fsFailure f) :
    σ1 = σ0 := by
  rw [run] at hrun
  simp only [Option.getD_some, cleanPhase, Bool.false_eq_true, if_false] at hrun
  rcases hc : classifyDirMap σ0 dirMap with e2 | files
  · rw [hc] at hrun
    injection hrun with h1
    injection h1 with h2 h3
    exact h3.symm
  · rw [hc] at hrun
    dsimp only at hrun
    split_ifs at hrun
    · injection hrun with h1
      injection h1 with h2 h3
      exact h3.symm
    · injection hrun with h1
      injection h1 with h2 h3
      exact h3.symm
    · rcases hp : runPhases env σ0 files (sortStr (writtenPaths files))
        dirMap babelopts false with ⟨f, σ2⟩ | σ2
      · rw [hp] at hrun
        injection hrun with h1
        injection h1 with h2 h3
        exact absurd h2.symm (hnotfs f)
      · rw [hp] at hrun
        cases hrun

theorem mem_sortStr (x : String) (l : List String) : x ∈ sortStr l ↔ x ∈ l :=
  (sortStr_perm l).mem_iff

theorem count_sortStr (x : String) (l : List String) :
    (sortStr l).count x = l.count x :=
  (sortStr_perm l).count_eq x

theorem dupes_cond_iff (w : List String) :
    (sortStr w).length ≠ (uniqFirst (sortStr w)).length ↔
      ∃ x, 2 ≤ w.count x := by
  rw [Ne, eq_comm, length_uniqFirst_eq_iff, List.nodup_iff_count_le_one]
  push_neg
  constructor
  · rintro ⟨a, ha⟩
    refine ⟨a, ?_⟩
    rw [← count_sortStr a w]
    omega
  · rintro ⟨a, ha⟩
    refine ⟨a, ?_⟩
    rw [count_sortStr a w]
    omega

theorem run_overlap_spec (env : Env) (σ0 : FS) (dirMap : List Pair)
    (babelopts : Opts) (bcopts : BCOpts) (files : Classified)
    (hcls : classifyDirMap (cleanPhase σ0 dirMap (bcopts.forceClean.getD true))
      dirMap = .ok files) :
    ((∃ ov σ2, run env σ0 dirMap babelopts bcopts =
        .error (.inputOutputOverlap ov, σ2)) ↔
      ∃ x, x ∈ writtenPaths files ∧ x ∈ inputPaths files) ∧
    ∀ ov σ2, run env σ0 dirMap babelopts bcopts =
        .error (.inputOutputOverlap ov, σ2) →
      ∀ x, x ∈ ov ↔ (x ∈ writtenPaths files ∧ x ∈ inputPaths files) := by
  have hmem : ∀ x, (x ∈ intersectionU (sortStr (writtenPaths files))
      (sortStr (inputPaths files))) ↔
      (x ∈ writtenPaths files ∧ x ∈ inputPaths files) := by
    intro x
    rw [mem_intersectionU, mem_sortStr, mem_sortStr]
  simp only [run, hcls]
  by_cases hov : intersectionU (sortStr (writtenPaths files))
      (sortStr (inputPaths files)) = []
  · rw [if_neg (not_not_intro hov)]
    have hvac : ∀ ov σ2,
        ¬ ((if (sortStr (writtenPaths files)).length ≠
              (uniqFirst (sortStr (writtenPaths files))).length then
            Except.error (RunErr.foundDuplicates
              (adjDupes (sortStr (writtenPaths files))),
              cleanPhase σ0 dirMap (bcopts.forceClean.getD true))
          else
            match runPhases env (cleanPhase σ0 dirMap (bcopts.forceClean.getD true))
                files (sortStr (writtenPaths files)) dirMap babelopts
                (bcopts.forceClean.getD true) with
            | Except.error (e, σ2) => Except.error (RunErr.fsFailure e, σ2)
            | Except.ok σ2 => Except.ok σ2) =
          Except.error (RunErr.inputOutputOverlap ov, σ2)) := by
      intro ov σ2 heq
      split_ifs at heq
      · simp at heq
      · rcases hp : runPhases env (cleanPhase σ0 dirMap (bcopts.forceClean.getD true))
            files (sortStr (writtenPaths files)) dirMap babelopts
            (bcopts.forceClean.getD true) with fe | σ3
        · rcases fe with ⟨f, σ3⟩
          rw [hp] at heq
          simp at heq
        · rw [hp] at heq
          simp at heq
    constructor
    · constructor
      · rintro ⟨ov, σ2, heq⟩
        exact absurd heq (hvac ov σ2)
      · rintro ⟨x, hx⟩
        have hmemx := (hmem x).mpr hx
        rw [hov] at hmemx
        exact absurd hmemx (List.not_mem_nil x)
    · intro ov σ2 heq
      exact absurd heq (hvac ov σ2)
  · rw [if_pos hov]
    constructor
    · constructor
      · intro h
        rcases List.exists_mem_of_ne_nil _ hov with ⟨x, hx⟩
        exact ⟨x, (hmem x).mp hx⟩
      · intro h
        exact ⟨_, _, rfl⟩
    · intro ov σ2 heq
      have hoveq : intersectionU (sortStr (writtenPaths files))
          (sortStr (inputPaths files)) = ov := by
        injection heq with h1
        injection h1 with h2 h3
        exact RunErr.inputOutputOverlap.inj h2
      intro x
      rw [← hoveq]
      exact hmem x


theorem run_dupes_spec (env : Env) (σ0 : FS) (dirMap : List Pair)
    (babelopts : Opts) (bcopts : BCOpts) (files : Classified)
    (hcls : classifyDirMap (cleanPhase σ0 dirMap (bcopts.forceClean.getD true))
      dirMap = .ok files) :
    ((∃ d σ2, run env σ0 dirMap babelopts bcopts =
        .error (.foundDuplicates d, σ2)) ↔
      ((∃ x, 2 ≤ (writtenPaths files).count x) ∧
        ¬ ∃ x, x ∈ writtenPaths files ∧ x ∈ inputPaths files)) ∧
    ∀ d σ2, run env σ0 dirMap babelopts bcopts =
        .error (.foundDuplicates d, σ2) →
      ∀ x, x ∈ d ↔ 2 ≤ (writtenPaths files).count x := by
  have hmem : ∀ x, (x ∈ intersectionU (sortStr (writtenPaths files))
      (sortStr (inputPaths files))) ↔
      (x ∈ writtenPaths files ∧ x ∈ inputPaths files) := by
    intro x
    rw [mem_intersectionU, mem_sortStr, mem_sortStr]
  have hdmem : ∀ x, x ∈ adjDupes (sortStr (writtenPaths files)) ↔
      2 ≤ (writtenPaths files).count x := by
    intro x
    rw [mem_adjDupes_of_sorted (sortStr (writtenPaths files))
      (sortStr_sorted (writtenPaths files)) x, count_sortStr]
  simp only [run, hcls]
  by_cases hov : intersectionU (sortStr (writtenPaths files))
      (sortStr (inputPaths files)) = []
  · rw [if_neg (not_not_intro hov)]
    have hnoov : ¬ ∃ x, x ∈ writtenPaths files ∧ x ∈ inputPaths files := by
      rintro ⟨x, hx⟩
      have hmemx := (hmem x).mpr hx
      rw [hov] at hmemx
      exact absurd hmemx (List.not_mem_nil x)
    by_cases hdup : (sortStr (writtenPaths files)).length ≠
        (uniqFirst (sortStr (writtenPaths files))).length
    · rw [if_pos hdup]
      refine ⟨⟨fun _ => ⟨(dupes_cond_iff (writtenPaths files)).mp hdup, hnoov⟩,
        fun _ => ⟨_, _, rfl⟩⟩, ?_⟩
      intro d σ2 heq
      have hdeq : adjDupes (sortStr (writtenPaths files)) = d := by
        injection heq with h1
        injection h1 with h2 h3
        exact RunErr.foundDuplicates.inj h2
      intro x
      rw [← hdeq]
      exact hdmem x
    · rw [if_neg hdup]
      have hvac : ∀ d σ2,
          ¬ ((match runPhases env
                (cleanPhase σ0 dirMap (bcopts.forceClean.getD true))
                files (sortStr (writtenPaths files)) dirMap babelopts
                (bcopts.forceClean.getD true) with
            | Except.error (e, σ2) => Except.error (RunErr.fsFailure e, σ2)
            | Except.ok σ2 => Except.ok σ2) =
            Except.error (RunErr.foundDuplicates d, σ2)) := by
        intro d σ2 heq
        rcases hp : runPhases env (cleanPhase σ0 dirMap (bcopts.forceClean.getD true))
            files (sortStr (writtenPaths files)) dirMap babelopts
            (bcopts.forceClean.getD true) with fe | σ3
        · rcases fe with ⟨f, σ3⟩
          rw [hp] at heq
          simp at heq
        · rw [hp] at heq
          simp at heq
      refine ⟨⟨fun h => ?_, fun h => ?_⟩, fun d σ2 heq => absurd heq (hvac d σ2)⟩
      · rcases h with ⟨d, σ2, heq⟩
        exact absurd heq (hvac d σ2)
      · rcases h with ⟨hcnt, _⟩
        exact absurd ((dupes_cond_iff (writtenPaths files)).mpr hcnt) hdup
  · rw [if_pos hov]
    have hhasov : ∃ x, x ∈ writtenPaths files ∧ x ∈ inputPaths files := by
      rcases List.exists_mem_of_ne_nil _ hov with ⟨x, hx⟩
      exact ⟨x, (hmem x).mp hx⟩
    refine ⟨⟨fun h => ?_, fun h => absurd hhasov h.2⟩, fun d σ2 heq => ?_⟩
    · rcases h with ⟨d, σ2, heq⟩
      simp at heq
    · simp at heq

/-! ## Concrete fixtures used by the claim witnesses and counterexamples -/

/-- An environment where hardlinking succeeds and the transform returns
fixed output. -/
def sampleEnv : Env := ⟨true, true, 100, fun _ _ => .ok ⟨"CODE", "MAP"⟩⟩

/-- An environment where hardlinking fails and symlinking succeeds. -/
def symlinkEnv : Env := ⟨false, true, 100, fun _ _ => .ok ⟨"CODE", "MAP"⟩⟩

/-- A regular-file node. -/
def mkFile (content : String) (ino mtime : Nat) : Node :=
  ⟨.file content, ino, mtime, 420⟩

/-- Two sources and a stale destination file, for a duplicate-output run. -/
def stDup : FS := [("a", mkFile "A" 1 5), ("b", mkFile "B" 2 5),
  ("c", mkFile "OLD" 3 9)]

/-- The two sources alone. -/
def stTwoSrc : FS := [("a", mkFile "A" 1 5), ("b", mkFile "B" 2 5)]

/-- A source file whose destination already holds an equal-mtime file. -/
def stEqualM : FS := [("s.txt", mkFile "new" 1 5), ("d.txt", mkFile "old" 2 5)]

/-- A source file whose destination holds a strictly newer file. -/
def stNewerDst : FS := [("s.txt", mkFile "new" 1 5), ("d.txt", mkFile "old" 2 6)]

/-- A destination hardlinked to its own compile source (same node, same
nonzero inode). -/
def stHardlinkDst : FS := [("src.js", mkFile "x" 7 5), ("dst.js", mkFile "x" 7 5)]

/-- A destination that is a directory with a child. -/
def stDirDst : FS := [("a.txt", mkFile "x" 1 5),
  ("out", ⟨.directory, 2, 5, 493⟩), ("out/z", mkFile "z" 3 5)]

/-- A destination symlink storing exactly the engine-produced relative
target. -/
def stGoodLink : FS := [("s/a.txt", mkFile "x" 1 5),
  ("o/a.txt", ⟨.symlink "../s/a.txt", 4, 9, 511⟩)]

/-- A destination symlink with a different target. -/
def stBadLink : FS := [("s/a.txt", mkFile "x" 1 5),
  ("o/a.txt", ⟨.symlink "b.txt", 4, 9, 511⟩)]

/-- The source file alone, destination absent. -/
def stNoDst : FS := [("s/a.txt", mkFile "x" 1 5)]

/-- Source and destination files that both report inode `0`. -/
def stZeroIno : FS := [("s.txt", mkFile "x" 0 5), ("d.txt", mkFile "y" 0 6)]

/-! ## The claims -/

/-- **C1** (amended): when `forceClean` is `false`, every rejection of
`run` with the missing-source error, `InputOutputOverlap`, or
`FoundDuplicates` carries a filesystem state equal to the initial one:
the pre-flight checks mutate nothing.  (As stated the claim is false
under the default configuration: `forceClean` defaults to `true` and the
destination roots are deleted before classification and validation, see
the counterexample.) -/
theorem c1_preflight_leaves_fs_untouched (env : Env) (σ0 : FS)
    (dirMap : List Pair) (babelopts : Opts) (e : RunErr) (σ1 : FS)
    (hrun : run env σ0 dirMap babelopts ⟨some false⟩ = .error (e, σ1))
    (hnotfs : ∀ f : FsErr, e ≠ RunErr.fsFailure f) :
    σ1 = σ0 :=
  run_preflight_pure env σ0 dirMap babelopts e σ1 hrun hnotfs

theorem c1_witness :
    run sampleEnv stTwoSrc [⟨"a", "b"⟩, ⟨"b", "c"⟩] [] ⟨some false⟩ =
      .error (.inputOutputOverlap ["b"], stTwoSrc) ∧ stTwoSrc = stTwoSrc :=
  ⟨by decide,
    c1_preflight_leaves_fs_untouched sampleEnv stTwoSrc
      [⟨"a", "b"⟩, ⟨"b", "c"⟩] [] (.inputOutputOverlap ["b"]) stTwoSrc
      (by decide) (fun f h => by cases h)⟩

/-- **C1** counterexample: under the default configuration
(`forceClean = true`), a run that rejects with `FoundDuplicates` has
already deleted the destination root `"c"`, so the destination tree is
not as it was before `run` was invoked. -/
theorem c1_counterexample :
    run sampleEnv stDup [⟨"a", "c"⟩, ⟨"b", "c"⟩] [] =
      .error (.foundDuplicates ["c"],
        [("a", mkFile "A" 1 5), ("b", mkFile "B" 2 5)]) ∧
    fsGet stDup "c" = some (mkFile "OLD" 3 9) ∧
    fsGet [("a", mkFile "A" 1 5), ("b", mkFile "B" 2 5)] "c" = none := by
  refine ⟨by decide, by decide, by decide⟩

/-- **C2** (amended): `run` rejects with `FoundDuplicates` iff the
written-paths multiset (compile destinations, copy destinations, and
compile destinations with `.map` appended) has a repeated element *and*
the overlap check passes (the intersection of written and input paths is
empty, since `InputOutputOverlap` is thrown first); when it rejects, the
`dupes` field contains exactly the repeated paths. -/
theorem c2_foundDuplicates_characterization (env : Env) (σ0 : FS)
    (dirMap : List Pair) (babelopts : Opts) (bcopts : BCOpts)
    (files : Classified)
    (hcls : classifyDirMap (cleanPhase σ0 dirMap (bcopts.forceClean.getD true))
      dirMap = .ok files) :
    ((∃ d σ2, run env σ0 dirMap babelopts bcopts =
        .error (.foundDuplicates d, σ2)) ↔
      ((∃ x, 2 ≤ (writtenPaths files).count x) ∧
        ¬ ∃ x, x ∈ writtenPaths files ∧ x ∈ inputPaths files)) ∧
    ∀ d σ2, run env σ0 dirMap babelopts bcopts =
        .error (.foundDuplicates d, σ2) →
      ∀ x, x ∈ d ↔ 2 ≤ (writtenPaths files).count x :=
  run_dupes_spec env σ0 dirMap babelopts bcopts files hcls

theorem c2_witness :
    classifyDirMap stTwoSrc [⟨"a", "c"⟩, ⟨"b", "c"⟩] =
      .ok ⟨[], [], [⟨"a", "c"⟩, ⟨"b", "c"⟩]⟩ ∧
    (((∃ d σ2, run sampleEnv stTwoSrc [⟨"a", "c"⟩, ⟨"b", "c"⟩] [] ⟨some false⟩ =
        .error (.foundDuplicates d, σ2)) ↔
      ((∃ x, 2 ≤ (writtenPaths ⟨[], [], [⟨"a", "c"⟩, ⟨"b", "c"⟩]⟩).count x) ∧
        ¬ ∃ x, x ∈ writtenPaths ⟨[], [], [⟨"a", "c"⟩, ⟨"b", "c"⟩]⟩ ∧
          x ∈ inputPaths ⟨[], [], [⟨"a", "c"⟩, ⟨"b", "c"⟩]⟩)) ∧
    ∀ d σ2, run sampleEnv stTwoSrc [⟨"a", "c"⟩, ⟨"b", "c"⟩] [] ⟨some false⟩ =
        .error (.foundDuplicates d, σ2) →
      ∀ x, x ∈ d ↔ 2 ≤ (writtenPaths ⟨[], [], [⟨"a", "c"⟩, ⟨"b", "c"⟩]⟩).count x) :=
  ⟨by decide,
    c2_foundDuplicates_characterization sampleEnv stTwoSrc
      [⟨"a", "c"⟩, ⟨"b", "c"⟩] [] ⟨some false⟩
      ⟨[], [], [⟨"a", "c"⟩, ⟨"b", "c"⟩]⟩ (by decide)⟩

/-- **C2** counterexample: a dirMap whose written-paths multiset contains
`"b"` twice, yet `run` rejects with `InputOutputOverlap` (checked first)
rather than `FoundDuplicates`, so the claimed iff fails. -/
theorem c2_counterexample :
    classifyDirMap stTwoSrc [⟨"a", "b"⟩, ⟨"b", "b"⟩] =
      .ok ⟨[], [], [⟨"a", "b"⟩, ⟨"b", "b"⟩]⟩ ∧
    2 ≤ (writtenPaths ⟨[], [], [⟨"a", "b"⟩, ⟨"b", "b"⟩]⟩).count "b" ∧
    run sampleEnv stTwoSrc [⟨"a", "b"⟩, ⟨"b", "b"⟩] [] ⟨some false⟩ =
      .error (.inputOutputOverlap ["b"], stTwoSrc) := by
  refine ⟨by decide, by decide, by decide⟩

/-- **C3**: `run` rejects with `InputOutputOverlap` iff some will-be-written
path (compile destination, copy destination, or compile destination with
`.map` appended) is also a declared input (compile or copy source); when
it rejects, the `overlap` field lists exactly the offending paths. -/
theorem c3_overlap_characterization (env : Env) (σ0 : FS)
    (dirMap : List Pair) (babelopts : Opts) (bcopts : BCOpts)
    (files : Classified)
    (hcls : classifyDirMap (cleanPhase σ0 dirMap (bcopts.forceClean.getD true))
      dirMap = .ok files) :
    ((∃ ov σ2, run env σ0 dirMap babelopts bcopts =
        .error (.inputOutputOverlap ov, σ2)) ↔
      ∃ x, x ∈ writtenPaths files ∧ x ∈ inputPaths files) ∧
    ∀ ov σ2, run env σ0 dirMap babelopts bcopts =
        .error (.inputOutputOverlap ov, σ2) →
      ∀ x, x ∈ ov ↔ (x ∈ writtenPaths files ∧ x ∈ inputPaths files) :=
  run_overlap_spec env σ0 dirMap babelopts bcopts files hcls

theorem c3_witness :
    classifyDirMap stTwoSrc [⟨"a", "b"⟩, ⟨"b", "c"⟩] =
      .ok ⟨[], [], [⟨"a", "b"⟩, ⟨"b", "c"⟩]⟩ ∧
    (((∃ ov σ2, run sampleEnv stTwoSrc [⟨"a", "b"⟩, ⟨"b", "c"⟩] [] ⟨some false⟩ =
        .error (.inputOutputOverlap ov, σ2)) ↔
      ∃ x, x ∈ writtenPaths ⟨[], [], [⟨"a", "b"⟩, ⟨"b", "c"⟩]⟩ ∧
        x ∈ inputPaths ⟨[], [], [⟨"a", "b"⟩, ⟨"b", "c"⟩]⟩) ∧
    ∀ ov σ2, run sampleEnv stTwoSrc [⟨"a", "b"⟩, ⟨"b", "c"⟩] [] ⟨some false⟩ =
        .error (.inputOutputOverlap ov, σ2) →
      ∀ x, x ∈ ov ↔ (x ∈ writtenPaths ⟨[], [], [⟨"a", "b"⟩, ⟨"b", "c"⟩]⟩ ∧
        x ∈ inputPaths ⟨[], [], [⟨"a", "b"⟩, ⟨"b", "c"⟩]⟩)) :=
  ⟨by decide,
    c3_overlap_characterization sampleEnv stTwoSrc [⟨"a", "b"⟩, ⟨"b", "c"⟩]
      [] ⟨some false⟩ ⟨[], [], [⟨"a", "b"⟩, ⟨"b", "c"⟩]⟩ (by decide)⟩

/-- **C4** (amended): for a plain-file destination that is not
identity-equal to the source, `copy` and `compile` return without
modifying the destination exactly when its mtime is *strictly* newer
than the source's; when the destination mtime is less than or equal to
the source's (including equality), the destination is removed and
recreated.  (The claim's "newer than or equal" is refuted by the equal
mtime counterexample.) -/
theorem c4_staleness_shortcircuit (env : Env) (σ : FS) (src dst : String)
    (opts : Opts) (s d : Node) (c cd : String)
    (hsrc : statNode σ src = some s) (hsf : s.kind = .file c)
    (hdst : fsGet σ dst = some d) (hdf : d.kind = .file cd)
    (hni : ¬(s.ino = d.ino ∧ s.ino ≠ 0)) :
    (d.mtime > s.mtime →
      copy env σ src dst = .ok σ ∧ compile env σ src dst opts = .ok σ) ∧
    (¬ d.mtime > s.mtime →
      copy env σ src dst = .ok (createLink env (fsRemove σ dst) s src dst) ∧
      compile env σ src dst opts =
        doTransform env (fsRemove σ dst) s src dst opts) := by
  have hcopy := copy_file_dst env σ src dst s d c cd hsrc hsf hdst hdf hni
  have hcompile := compile_file_dst env σ src dst opts s d c cd hsrc hsf hdst hdf hni
  constructor
  · intro hm
    rw [hcopy, hcompile, if_pos hm, if_pos hm]
    exact ⟨rfl, rfl⟩
  · intro hm
    rw [hcopy, hcompile, if_neg hm, if_neg hm]
    exact ⟨rfl, rfl⟩

theorem c4_staleness_witness :
    statNode stNewerDst "s.txt" = some (mkFile "new" 1 5) ∧
    ((mkFile "old" 2 6).mtime > (mkFile "new" 1 5).mtime →
      copy sampleEnv stNewerDst "s.txt" "d.txt" = .ok stNewerDst ∧
      compile sampleEnv stNewerDst "s.txt" "d.txt" [] = .ok stNewerDst) ∧
    (¬ (mkFile "old" 2 6).mtime > (mkFile "new" 1 5).mtime →
      copy sampleEnv stNewerDst "s.txt" "d.txt" =
        .ok (createLink sampleEnv (fsRemove stNewerDst "d.txt")
          (mkFile "new" 1 5) "s.txt" "d.txt") ∧
      compile sampleEnv stNewerDst "s.txt" "d.txt" [] =
        doTransform sampleEnv (fsRemove stNewerDst "d.txt")
          (mkFile "new" 1 5) "s.txt" "d.txt" []) :=
  ⟨by decide,
    (c4_staleness_shortcircuit sampleEnv stNewerDst "s.txt" "d.txt" []
      (mkFile "new" 1 5) (mkFile "old" 2 6) "new" "old"
      (by decide) (by decide) (by decide) (by decide) (by decide)).1,
    (c4_staleness_shortcircuit sampleEnv stNewerDst "s.txt" "d.txt" []
      (mkFile "new" 1 5) (mkFile "old" 2 6) "new" "old"
      (by decide) (by decide) (by decide) (by decide) (by decide)).2⟩

/-- **C4** counterexample: source and destination with *equal* mtimes —
the claim says `copy` returns without modifying the destination, but the
code (which tests `dstlstat.mtime > srcstat.mtime` strictly) unlinks
`d.txt` and recreates it as a hardlink to the source. -/
theorem c4_counterexample :
    copy sampleEnv stEqualM "s.txt" "d.txt" =
      .ok [("s.txt", mkFile "new" 1 5), ("d.txt", mkFile "new" 1 5)] ∧
    fsGet stEqualM "d.txt" = some (mkFile "old" 2 5) ∧
    fsGet [("s.txt", mkFile "new" 1 5), ("d.txt", mkFile "new" 1 5)] "d.txt" =
      some (mkFile "new" 1 5) ∧
    (mkFile "old" 2 5).mtime = (mkFile "new" 1 5).mtime := by
  refine ⟨by decide, by decide, by decide, by decide⟩

/-- **C5**: `compile` on a destination hardlinked to its source (same
nonzero inode, hence the same mtime) does *not* succeed: the inode
short-circuit unlinks the destination (line 478) and the mtime branch
then unlinks the same path again (line 489), so the promise rejects with
`ENOENT` instead of recompiling. -/
theorem c5_hardlinked_dst_crashes :
    fsGet stHardlinkDst "src.js" = some (mkFile "x" 7 5) ∧
    fsGet stHardlinkDst "dst.js" = some (mkFile "x" 7 5) ∧
    (mkFile "x" 7 5).ino ≠ 0 ∧
    compile sampleEnv stHardlinkDst "src.js" "dst.js" [] =
      .error (.enoent "dst.js") := by
  refine ⟨by decide, by decide, by decide, by decide⟩

/-- **C6**: `copy` onto a destination that is a directory does *not*
succeed: the directory is removed recursively (line 331) but the
non-file cleanup (line 352, whose guard `!dstlstat.isFile()` also
matches directories) then unlinks the already-removed path and the
promise rejects with `ENOENT` instead of linking. -/
theorem c6_directory_dst_crashes :
    fsGet stDirDst "out" = some ⟨.directory, 2, 5, 493⟩ ∧
    copy sampleEnv stDirDst "a.txt" "out" = .error (.enoent "out") := by
  refine ⟨by decide, by decide⟩

/-- **C7**: the classifier partitions every non-directory of the walked
tree into exactly one of the compile bucket (`.js`/`.jsx` extension) and
the copy bucket (everything else), records every directory — empty ones
included — in the directory list, and emits no directory entry for a
single-file pairing. -/
theorem c7_classifier_partitions (e : Entry) (src dst : String) :
    List.Perm ((classifyDirectory e src dst).com.map Pair.src ++
        (classifyDirectory e src dst).cop.map Pair.src)
      (srcFiles e src) ∧
    (classifyDirectory e src dst).com.map Pair.src =
      (srcFiles e src).filter isJs ∧
    (classifyDirectory e src dst).cop.map Pair.src =
      (srcFiles e src).filter (fun s => !isJs s) ∧
    (classifyDirectory e src dst).dir = dstDirs e dst ∧
    ∀ n, (classifyDirectory (Entry.file n) src dst).dir = [] := by
  obtain ⟨h1, h2, h3⟩ := classifySpec e src dst
  refine ⟨?_, h1, h2, h3, ?_⟩
  · rw [h1, h2]
    exact List.filter_append_perm _ _
  · intro n
    by_cases h : isJs src = true <;> simp [classifyDirectory, h]

/-- **C8**: the options `compile` hands to the transform capability force
`sourceMaps`, `sourceFileName`, `sourceMapTarget` and `sourceRoot` to the
engine-computed values whatever the caller supplied, and pass every
other caller key through unchanged. -/
theorem c8_forced_options (src dst : String) (opts : Opts) :
    effectiveOpts src dst opts "sourceMaps" = some (.b true) ∧
    effectiveOpts src dst opts "sourceFileName" = some (.s (basename src)) ∧
    effectiveOpts src dst opts "sourceMapTarget" = some (.s (basename dst)) ∧
    effectiveOpts src dst opts "sourceRoot" =
      some (.s (relative (dirname dst) (dirname src))) ∧
    ∀ k, k ∉ ["sourceMaps", "sourceFileName", "sourceMapTarget", "sourceRoot"] →
      effectiveOpts src dst opts k = getOpt opts k := by
  refine ⟨rfl, rfl, rfl, rfl, ?_⟩
  intro k hk
  simp only [List.mem_cons, List.not_mem_nil, or_false, not_or] at hk
  obtain ⟨h1, h2, h3, h4⟩ := hk
  simp [effectiveOpts, forcedOpts, getOpt, List.find?,
    Ne.symm h1, Ne.symm h2, Ne.symm h3, Ne.symm h4]

theorem c8_forced_options_witness :
    effectiveOpts "in/a.js" "out/a.js" [("sourceMaps", .b false),
      ("presets", .s "es2015")] "sourceMaps" = some (.b true) ∧
    effectiveOpts "in/a.js" "out/a.js" [("sourceMaps", .b false),
      ("presets", .s "es2015")] "presets" = some (.s "es2015") :=
  ⟨(c8_forced_options "in/a.js" "out/a.js" [("sourceMaps", .b false),
      ("presets", .s "es2015")]).1,
    (c8_forced_options "in/a.js" "out/a.js" [("sourceMaps", .b false),
      ("presets", .s "es2015")]).2.2.2.2 "presets" (by decide)⟩

/-- **C9**: a destination symlink whose stored target equals the relative
path from the destination's directory to the source — exactly what the
engine's own symlink fallback writes — makes `copy` a no-op, and a second
`copy` after a symlink-producing first call is a no-op; but a symlink
with any *other* target is unlinked (line 346) and then unlinked again by
the non-file cleanup (line 352), so `copy` rejects with `ENOENT` instead
of recreating the link. -/
theorem c9_symlink_roundtrip :
    relative (dirname "o/a.txt") "s/a.txt" = "../s/a.txt" ∧
    copy sampleEnv stGoodLink "s/a.txt" "o/a.txt" = .ok stGoodLink ∧
    copy symlinkEnv stNoDst "s/a.txt" "o/a.txt" =
      .ok [("s/a.txt", mkFile "x" 1 5),
        ("o/a.txt", ⟨.symlink "../s/a.txt", 2, 100, 511⟩)] ∧
    copy symlinkEnv [("s/a.txt", mkFile "x" 1 5),
        ("o/a.txt", ⟨.symlink "../s/a.txt", 2, 100, 511⟩)]
      "s/a.txt" "o/a.txt" =
      .ok [("s/a.txt", mkFile "x" 1 5),
        ("o/a.txt", ⟨.symlink "../s/a.txt", 2, 100, 511⟩)] ∧
    copy sampleEnv stBadLink "s/a.txt" "o/a.txt" =
      .error (.enoent "o/a.txt") := by
  refine ⟨by decide, by decide, by decide, by decide, by decide⟩

/-- **C10**: when source and destination both report inode `0`, the
identity short-circuit of `copy` and `compile` never fires: the decision
falls through to the modification-time comparison. -/
theorem c10_zero_inode_not_identity (env : Env) (σ : FS) (src dst : String)
    (opts : Opts) (s d : Node) (c cd : String)
    (hsrc : statNode σ src = some s) (hsf : s.kind = .file c)
    (hdst : fsGet σ dst = some d) (hdf : d.kind = .file cd)
    (hs0 : s.ino = 0) (_hd0 : d.ino = 0) :
    copy env σ src dst =
      (if d.mtime > s.mtime then .ok σ
        else .ok (createLink env (fsRemove σ dst) s src dst)) ∧
    compile env σ src dst opts =
      (if d.mtime > s.mtime then .ok σ
        else doTransform env (fsRemove σ dst) s src dst opts) := by
  have hni : ¬(s.ino = d.ino ∧ s.ino ≠ 0) := by
    rintro ⟨_, hne⟩
    exact hne hs0
  exact ⟨copy_file_dst env σ src dst s d c cd hsrc hsf hdst hdf hni,
    compile_file_dst env σ src dst opts s d c cd hsrc hsf hdst hdf hni⟩

theorem c10_zero_inode_witness :
    statNode stZeroIno "s.txt" = some (mkFile "x" 0 5) ∧
    (copy sampleEnv stZeroIno "s.txt" "d.txt" =
      (if (mkFile "y" 0 6).mtime > (mkFile "x" 0 5).mtime
        then .ok stZeroIno
        else .ok (createLink sampleEnv (fsRemove stZeroIno "d.txt")
          (mkFile "x" 0 5) "s.txt" "d.txt")) ∧
    compile sampleEnv stZeroIno "s.txt" "d.txt" [] =
      (if (mkFile "y" 0 6).mtime > (mkFile "x" 0 5).mtime
        then .ok stZeroIno
        else doTransform sampleEnv (fsRemove stZeroIno "d.txt")
          (mkFile "x" 0 5) "s.txt" "d.txt" [])) :=
  ⟨by decide,
    c10_zero_inode_not_identity sampleEnv stZeroIno "s.txt" "d.txt" []
      (mkFile "x" 0 5) (mkFile "y" 0 6) "x" "y"
      (by decide) (by decide) (by decide) (by decide) (by decide) (by decide)⟩

end BabelCompile
